import Mathlib

/-!
Verification development for the medi-cabinet Telegram inventory bot.

The development shallowly embeds the two cores of the repository:
the natural-language command classifiers and dispatcher of
`src/parsers.py`, and the SQLite-backed repositories of
`src/database.py` (medicines and activity log), together with the
fuzzy-name resolution branches of `src/commands.py`.

Modelling conventions:
- text is `List Char` (`Str`); Python `str.lower`/`str.strip` become
  `lowerL`/`trimL` (ASCII, matching SQLite `LOWER` and the ASCII inputs
  of the claims);
- the Python `re` patterns are embedded as regex syntax trees (`RE`)
  run by a fuel-bounded backtracking matcher `reM` with Python
  semantics (greedy quantifiers, leftmost alternative, leftmost search
  position, capture groups);
- Python exceptions that can escape the parsers (IndexError and
  friends) are modelled with `Except PyExn`;
- SQLite tables become Lean lists in insertion (rowid) order; AUTOINCREMENT
  is a counter; `CURRENT_TIMESTAMP` is an explicit `now : Int` argument
  (timestamps are integers ordered like the ISO strings the code compares);
- the external `fuzzywuzzy` scorer is a parameter `ratio`; where a claim
  needs its behaviour, the contract stated in the specification
  (scores in [0,100], 100 exactly on equal lowercased strings) is taken
  as a hypothesis.
-/

set_option maxHeartbeats 1000000

namespace MediCabinet

abbrev Str := List Char

/-- Python whitespace characters recognised by `str.strip` and `\s` (ASCII). -/
def isSpaceB (c : Char) : Bool :=
  c == ' ' || c == '\t' || c == '\n' || c == '\r' || c == '\x0b' || c == '\x0c'

/-- ASCII lowercasing of one character (the table of the 26 letters that
Python `str.lower` and SQLite `LOWER` fold on ASCII input). -/
def lowerCh : Char → Char
  | 'A' => 'a'
  | 'B' => 'b'
  | 'C' => 'c'
  | 'D' => 'd'
  | 'E' => 'e'
  | 'F' => 'f'
  | 'G' => 'g'
  | 'H' => 'h'
  | 'I' => 'i'
  | 'J' => 'j'
  | 'K' => 'k'
  | 'L' => 'l'
  | 'M' => 'm'
  | 'N' => 'n'
  | 'O' => 'o'
  | 'P' => 'p'
  | 'Q' => 'q'
  | 'R' => 'r'
  | 'S' => 's'
  | 'T' => 't'
  | 'U' => 'u'
  | 'V' => 'v'
  | 'W' => 'w'
  | 'X' => 'x'
  | 'Y' => 'y'
  | 'Z' => 'z'
  | c => c

/-- Python `str.lower` (ASCII, which also matches SQLite `LOWER`). -/
def lowerL (s : Str) : Str := s.map lowerCh

/-- Python `str.strip` with no argument: drop whitespace from both ends. -/
def trimL (s : Str) : Str :=
  ((s.dropWhile isSpaceB).reverse.dropWhile isSpaceB).reverse

/-- Python `str.startswith`. -/
def isPrefB : Str → Str → Bool
  | [], _ => true
  | _ :: _, [] => false
  | a :: as, b :: bs => a == b && isPrefB as bs

/-- Python substring containment (the `in` operator on strings). -/
def containsL (needle : Str) : Str → Bool
  | [] => needle.isEmpty
  | hay@(_ :: rest) => isPrefB needle hay || containsL needle rest

/-- Helper for `titleL`: the Boolean records whether the previous character
was alphabetic (cased), as in Python `str.title`. -/
def titleGo : Bool → Str → Str
  | _, [] => []
  | prevAlpha, c :: cs =>
    (if c.isAlpha then (if prevAlpha then c.toLower else c.toUpper) else c) ::
      titleGo c.isAlpha cs

/-- Python `str.title`: uppercase every letter that follows a non-letter,
lowercase the other letters. -/
def titleL (s : Str) : Str := titleGo false s

/-- Numeric value of a digit string, as computed by Python `int` on an
all-digit string. -/
def digitsVal (s : Str) : Nat :=
  s.foldl (fun acc c => acc * 10 + (c.toNat - 48)) 0

/-- Python `str.isdigit` (ASCII): nonempty and all digits. -/
def pyIsdigit (s : Str) : Bool := !s.isEmpty && s.all Char.isDigit

/-- Regex syntax trees covering the constructs used by `src/parsers.py`:
character classes, literals, concatenation, alternation, greedy `?`,
greedy `*`, and numbered capture groups. -/
inductive RE where
  | eps : RE
  | cls (p : Char → Bool) : RE
  | lit (s : Str) : RE
  | seq (a b : RE) : RE
  | alt (a b : RE) : RE
  | qmark (a : RE) : RE
  | star (a : RE) : RE
  | grp (n : Nat) (a : RE) : RE

/-- Case-insensitive literal match (all the Python patterns are compiled
with `re.IGNORECASE`); returns the rest of the input on success. -/
def litMatch : Str → Str → Option Str
  | [], s => some s
  | _ :: _, [] => none
  | a :: as, b :: bs => if lowerCh a == lowerCh b then litMatch as bs else none

/-- Backtracking regex matcher in continuation-passing style, mirroring
Python `re` semantics: alternatives are tried left to right, `?` and `*`
are greedy, and capture groups record the consumed substring.  The fuel
(structural, so that the matcher computes by reduction) bounds the
recursion depth: one unit per syntax-tree level plus one per star
iteration, and every starred subpattern of the embedded patterns consumes
at least one character per iteration, so any fuel of at least
`input length + nesting depth of the pattern` is exact; `reFuel` is far
above that for every embedded pattern. -/
def reM : Nat → RE → Str → List (Nat × Str) →
    (Str → List (Nat × Str) → Option (List (Nat × Str))) → Option (List (Nat × Str))
  | 0, _, _, _, _ => none
  | fuel + 1, re, s, caps, k =>
    match re with
    | .eps => k s caps
    | .cls p =>
      match s with
      | [] => none
      | c :: rest => if p c then k rest caps else none
    | .lit l =>
      match litMatch l s with
      | some rest => k rest caps
      | none => none
    | .seq a b => reM fuel a s caps (fun s1 c1 => reM fuel b s1 c1 k)
    | .alt a b => (reM fuel a s caps k).orElse (fun _ => reM fuel b s caps k)
    | .qmark a => (reM fuel a s caps k).orElse (fun _ => k s caps)
    | .star a =>
      (reM fuel a s caps (fun s1 c1 =>
        if s1.length == s.length then none else reM fuel (.star a) s1 c1 k)).orElse
        (fun _ => k s caps)
    | .grp n a =>
      reM fuel a s caps (fun s1 c1 => k s1 ((n, s.take (s.length - s1.length)) :: c1))

/-- Python `re.match` anchored at the start of the input: run the matcher
at position 0 only (used for the patterns that begin with a caret). -/
def reMatchAt (fuel : Nat) (r : RE) (s : Str) : Option (List (Nat × Str)) :=
  reM fuel r s [] (fun _ caps => some caps)

/-- Python `re.search`: try each start position from the left and return
the captures of the first position where the pattern matches. -/
def reSearch (fuel : Nat) (r : RE) : Str → Option (List (Nat × Str))
  | [] => reMatchAt fuel r []
  | c :: rest =>
    (reMatchAt fuel r (c :: rest)).orElse (fun _ => reSearch fuel r rest)

/-- Fuel that is always sufficient for the embedded patterns (each star
iteration consumes at least one character and the patterns contain far
fewer than 64 starred nodes). -/
def reFuel (s : Str) : Nat := s.length + 64

def rplus (a : RE) : RE := .seq a (.star a)

/-- The `\w` class (ASCII): letters, digits and underscore. -/
def wch : RE := .cls (fun c => c.isAlphanum || c == '_')

/-- The `\s` class. -/
def sch : RE := .cls isSpaceB

/-- The `\d` class. -/
def dch : RE := .cls Char.isDigit

def wplus : RE := rplus wch

def splus : RE := rplus sch

def dplus : RE := rplus dch

/-- The medicine-name capture `(\w+(?:\s+\w+)?)` shared by all patterns. -/
def nameGrp (n : Nat) : RE := .grp n (.seq wplus (.qmark (.seq splus wplus)))

def litS (s : String) : RE := .lit s.data

/-- Exactly-n repetition, for `\d{4}` and `\d{2}`. -/
def rep : RE → Nat → RE
  | _, 0 => .eps
  | r, n + 1 => .seq r (rep r n)

/-- The add-verb alternation `(?:bought|got|purchase[d]?|add(?:ed)?)`. -/
def addVerb : RE :=
  .alt (litS "bought") (.alt (litS "got")
    (.alt (.seq (litS "purchase") (.qmark (litS "d")))
          (.seq (litS "add") (.qmark (litS "ed")))))

/-- The use-verb alternation `(?:used|took|consume[d]?)`. -/
def useVerb : RE :=
  .alt (litS "used") (.alt (litS "took") (.seq (litS "consume") (.qmark (litS "d"))))

/-- The ordered `AddCommandParser.PATTERNS`; each entry carries whether the
pattern is anchored (begins with a caret) and its number of capture groups. -/
def addPatterns : List (Bool × RE × Nat) :=
  [ (true, .seq (litS "+") (.seq (.star sch) (.seq (nameGrp 1) (.seq splus (.grp 2 dplus)))), 2),
    (false, .seq addVerb (.seq splus (.seq (nameGrp 1) (.seq (.qmark (litS ","))
      (.seq (.star sch) (.seq (.grp 2 dplus) (.qmark (.seq splus (.grp 3 wplus)))))))), 3),
    (true, .seq (.grp 1 dplus) (.seq splus (nameGrp 2)), 2),
    (false, .seq addVerb (.seq splus (nameGrp 1)), 1) ]

/-- The ordered `UseCommandParser.PATTERNS`. -/
def usePatterns : List (Bool × RE × Nat) :=
  [ (true, .seq (litS "-") (.seq (.star sch) (.seq (nameGrp 1) (.seq splus (.grp 2 dplus)))), 2),
    (false, .seq useVerb (.seq splus (.seq (.grp 1 dplus) (.seq splus (nameGrp 2)))), 2),
    (false, .seq useVerb (.seq splus (.seq (nameGrp 1) (.seq (.qmark (litS ","))
      (.seq (.star sch) (.grp 2 dplus))))), 2),
    (false, .seq useVerb (.seq splus (.seq (.qmark (.seq (litS "some") splus)) (nameGrp 1))), 1) ]

/-- The ordered `SearchCommandParser.PATTERNS`. -/
def searchPatterns : List (Bool × RE × Nat) :=
  [ (true, .seq (litS "?") (.seq (.star sch) (nameGrp 1)), 1),
    (false, .seq (litS "do") (.seq splus (.seq (litS "we") (.seq splus
      (.seq (litS "have") (.seq splus (nameGrp 1)))))), 1),
    (false, .seq (.alt (litS "check") (.alt (litS "search") (.alt (litS "find") (litS "show"))))
      (.seq splus (nameGrp 1)), 1),
    (false, .seq (litS "have") (.seq splus (.seq (.qmark (.seq (litS "we") splus))
      (.seq (.qmark (.seq (litS "got") splus)) (nameGrp 1)))), 1) ]

/-- The class `[:\s]`. -/
def colonSp : RE := .cls (fun c => c == ':' || isSpaceB c)

/-- The month-plus-year capture body `[A-Za-z]+\s+\d{4}`. -/
def monthYear : RE := .seq (rplus (.cls Char.isAlpha)) (.seq splus (rep dch 4))

/-- The ordered expiry-date patterns of `AddCommandParser._extract_expiry_date`. -/
def expiryPatterns : List (Bool × RE × Nat) :=
  [ (false, .seq (litS "expire") (.seq (.qmark (.cls (fun c => c == 's' || c == 'd')))
      (.seq splus (.grp 1 monthYear))), 1),
    (false, .seq (litS "expiry") (.seq (rplus colonSp) (.grp 1 monthYear)), 1),
    (false, .seq (litS "exp") (.seq (rplus colonSp) (.grp 1 (.seq dch (.seq (.qmark dch)
      (.seq (.cls (fun c => c == '/' || c == '-')) (rep dch 4)))))), 1),
    (false, .grp 1 (.seq (rep dch 4) (.seq (litS "-") (rep dch 2))), 1) ]

/-- The location pattern of `AddCommandParser._extract_location`. -/
def locPattern : RE :=
  .seq (.alt (litS "in") (.alt (litS "at") (.seq (litS "location") (rplus colonSp))))
    (.seq splus (.grp 1 (.seq (rplus (.cls (fun c => c.isAlpha || isSpaceB c)))
      (.alt (litS "drawer") (.alt (litS "cabinet") (.alt (litS "room")
        (.alt (litS "shelf") (litS "box"))))))))

/-- Lookup of a numbered capture group (most recent binding first). -/
def lookupCap (caps : List (Nat × Str)) (n : Nat) : Option Str := caps.lookup n

/-- Run one pattern the way the source does: `re.match` semantics for the
anchored patterns, `re.search` for the rest. -/
def runPattern (anchored : Bool) (r : RE) (s : Str) : Option (List (Nat × Str)) :=
  if anchored then reMatchAt (reFuel s) r s else reSearch (reFuel s) r s

/-- The `for pattern in self.PATTERNS` loop: first matching pattern wins and
its `match.groups()` tuple is materialised (`none` for a group that did
not participate). -/
def firstMatch : List (Bool × RE × Nat) → Str → Option (List (Option Str))
  | [], _ => none
  | (anch, r, n) :: rest, s =>
    match runPattern anch r s with
    | some caps => some ((List.range n).map (fun i => lookupCap caps (i + 1)))
    | none => firstMatch rest s

/-- Python exceptions that the classifier code can raise (tuple indexing,
`int()` conversion, attribute access on `None`). -/
inductive PyExn where
  | indexError
  | valueError
  | typeError
  | attributeError
deriving DecidableEq, Repr

/-- Python tuple indexing `groups[i]`: IndexError when out of range. -/
def pyIdx (groups : List (Option Str)) (i : Nat) : Except PyExn (Option Str) :=
  match groups[i]? with
  | some v => .ok v
  | none => .error .indexError

/-- Python `int(x)` on a capture: TypeError on `None`, ValueError unless the
string is all digits (the captured strings never carry signs or spaces). -/
def pyInt : Option Str → Except PyExn Nat
  | none => .error .typeError
  | some s => if pyIsdigit s then .ok (digitsVal s) else .error .valueError

/-- Python `text[i]`: IndexError on an empty string. -/
def pyCharAt (s : Str) (i : Nat) : Except PyExn Char :=
  match s[i]? with
  | some c => .ok c
  | none => .error .indexError

/-- Python truthiness of a captured group: participating and nonempty. -/
def truthy : Option Str → Bool
  | none => false
  | some s => !s.isEmpty

instance {ε α : Type} [DecidableEq ε] [DecidableEq α] : DecidableEq (Except ε α) := fun a b =>
  match a, b with
  | .ok x, .ok y =>
    if h : x = y then isTrue (by rw [h]) else isFalse (fun hc => h (by cases hc; rfl))
  | .error x, .error y =>
    if h : x = y then isTrue (by rw [h]) else isFalse (fun hc => h (by cases hc; rfl))
  | .ok _, .error _ => isFalse (fun hc => by cases hc)
  | .error _, .ok _ => isFalse (fun hc => by cases hc)

/-- Command kinds of `ParsedCommand.command_type`. -/
inductive CmdType where
  | add
  | use
  | search
  | list
  | unknown
deriving DecidableEq, Repr

/-- The `ParsedCommand` dataclass of `src/parsers.py`.  The confidence float
only ever takes the exact values 0.0 and 1.0, modelled in `ℚ`; the expiry
date is the phrase handed to the external `dateutil` parser. -/
structure ParsedCommand where
  command_type : CmdType
  medicine_name : Option Str := none
  quantity : Option Nat := none
  unit : Str := "tablets".data
  expiry_date : Option Str := none
  location : Option Str := none
  confidence : ℚ := 1
  raw_text : Str := []
deriving DecidableEq, Repr

/-- The fixed synonym table of `AddCommandParser._normalize_unit`. -/
def normalize_unit (unit : Str) : Str :=
  let u := trimL (lowerL unit)
  if ["tablet".data, "tablets".data, "tab".data, "tabs".data].contains u then "tablets".data
  else if ["capsule".data, "capsules".data, "cap".data, "caps".data].contains u then "capsules".data
  else if ["ml".data, "milliliter".data, "milliliters".data].contains u then "ml".data
  else if ["mg".data, "milligram".data, "milligrams".data].contains u then "mg".data
  else if ["strip".data, "strips".data].contains u then "strips".data
  else if ["bottle".data, "bottles".data].contains u then "bottles".data
  else if ["piece".data, "pieces".data, "pcs".data, "pc".data].contains u then "pieces".data
  else "tablets".data

/-- Modelled from the spec: the external `dateutil` parser applied to the
extracted expiry phrase.  The phrases admitted by the expiry patterns are
month-and-year or numeric dates, which the spec treats as successfully
parsed optional expiry data, so the model keeps the phrase itself. -/
def dateutilParse (s : Str) : Option Str := some s

/-- The pattern loop of `AddCommandParser._extract_expiry_date`, scanning the
original (unlowered) text; a pattern whose phrase fails to date-parse is
skipped and the next pattern is tried. -/
def extractExpiryGo : List (Bool × RE × Nat) → Str → Option Str
  | [], _ => none
  | (anch, r, _) :: rest, text =>
    match runPattern anch r text with
    | some caps =>
      match lookupCap caps 1 with
      | some ds =>
        match dateutilParse ds with
        | some d => some d
        | none => extractExpiryGo rest text
      | none => extractExpiryGo rest text
    | none => extractExpiryGo rest text

def extract_expiry_date (text : Str) : Option Str :=
  extractExpiryGo expiryPatterns text

/-- The location scan of `AddCommandParser._extract_location`. -/
def extract_location (text : Str) : Option Str :=
  match reSearch (reFuel text) locPattern text with
  | some caps =>
    match lookupCap caps 1 with
    | some l => some (titleL (trimL l))
    | none => none
  | none => none

def addKeywords : List Str := ["bought".data, "got".data, "purchase".data, "add".data]

/-- The gate of `AddCommandParser.parse`: a plus prefix, an add keyword
anywhere, or a leading `\d+\s+\w+`. -/
def addGate (tl : Str) : Bool :=
  isPrefB "+".data tl || addKeywords.any (fun k => containsL k tl) ||
    (reMatchAt (reFuel tl) (.seq dplus (.seq splus wplus)) tl).isSome

/-- The body of `AddCommandParser.parse`.  The branch on the shape of the
input decides how the groups tuple is read; tuple accesses and `int()`
conversions raise exactly where the Python does (only the `int` in the
keyword branch is wrapped in `try/except (ValueError, IndexError)`). -/
def addParserParse (text : Str) : Except PyExn (Option ParsedCommand) :=
  let textLower := trimL (lowerL text)
  if !(addGate textLower) then .ok none
  else
    match firstMatch addPatterns textLower with
    | none => .ok none
    | some groups => do
      let triple ←
        (if isPrefB "+".data textLower then do
          let nameO ← pyIdx groups 0
          let qv ← pyInt (← pyIdx groups 1)
          pure (nameO, some qv, "tablets".data)
        else do
          let c0 ← pyCharAt textLower 0
          if c0.isDigit then do
            let qv ← pyInt (← pyIdx groups 0)
            let nameO ← pyIdx groups 1
            pure (nameO, some qv, "tablets".data)
          else if decide (2 ≤ groups.length) && truthy ((groups[1]?).getD none) then do
            let nameO ← pyIdx groups 0
            let qv ← (match pyInt ((groups[1]?).getD none) with
              | .ok v => pure (some v)
              | .error .valueError => pure none
              | .error .indexError => pure none
              | .error e => throw e)
            let unitRaw := if decide (2 < groups.length) && truthy ((groups[2]?).getD none)
              then ((groups[2]?).getD none).getD [] else "tablets".data
            pure (nameO, qv, unitRaw)
          else do
            let nameO ← pyIdx groups 0
            pure (nameO, none, "tablets".data))
      let name ← (match triple.1 with
        | some nm => pure nm
        | none => throw PyExn.attributeError)
      pure (some { command_type := .add,
                   medicine_name := some (titleL (trimL name)),
                   quantity := triple.2.1,
                   unit := normalize_unit triple.2.2,
                   expiry_date := extract_expiry_date text,
                   location := extract_location text,
                   confidence := 1 })

def useKeywords : List Str := ["used".data, "took".data, "consume".data]

/-- The gate of `UseCommandParser.parse`. -/
def useGate (tl : Str) : Bool :=
  isPrefB "-".data tl || useKeywords.any (fun k => containsL k tl)

/-- The body of `UseCommandParser.parse`; the keyword branch catches
ValueError and IndexError from `int()` and defaults the quantity to 1. -/
def useParserParse (text : Str) : Except PyExn (Option ParsedCommand) :=
  let textLower := trimL (lowerL text)
  if !(useGate textLower) then .ok none
  else
    match firstMatch usePatterns textLower with
    | none => .ok none
    | some groups => do
      let pair ←
        (if isPrefB "-".data textLower then do
          let nameO ← pyIdx groups 0
          let qv ← pyInt (← pyIdx groups 1)
          pure (nameO, some qv)
        else do
          let g0 ← pyIdx groups 0
          let g0s ← (match g0 with
            | some s => pure s
            | none => throw PyExn.attributeError)
          if pyIsdigit g0s then do
            let qv ← pyInt (some g0s)
            let nameO ← pyIdx groups 1
            pure (nameO, some qv)
          else if decide (2 ≤ groups.length) && truthy ((groups[1]?).getD none) then do
            let nameO ← pyIdx groups 0
            let qv ← (match pyInt ((groups[1]?).getD none) with
              | .ok v => pure v
              | .error .valueError => pure 1
              | .error .indexError => pure 1
              | .error e => throw e)
            pure (nameO, some qv)
          else do
            let nameO ← pyIdx groups 0
            pure (nameO, some 1))
      let name ← (match pair.1 with
        | some nm => pure nm
        | none => throw PyExn.attributeError)
      pure (some { command_type := .use,
                   medicine_name := some (titleL (trimL name)),
                   quantity := pair.2,
                   confidence := 1 })

def searchKeywords : List Str :=
  ["have".data, "check".data, "search".data, "find".data, "show".data]

/-- The gate of `SearchCommandParser.parse`. -/
def searchGate (tl : Str) : Bool :=
  isPrefB "?".data tl || searchKeywords.any (fun k => containsL k tl)

/-- The body of `SearchCommandParser.parse`: the first matching pattern's
group 1 is the medicine name. -/
def searchParserParse (text : Str) : Except PyExn (Option ParsedCommand) :=
  let textLower := trimL (lowerL text)
  if !(searchGate textLower) then .ok none
  else
    match firstMatch searchPatterns textLower with
    | none => .ok none
    | some groups => do
      let g1 ← pyIdx groups 0
      let name ← (match g1 with
        | some nm => pure nm
        | none => throw PyExn.attributeError)
      pure (some { command_type := .search,
                   medicine_name := some (titleL (trimL name)),
                   confidence := 1 })

/-- The keyword set of `ListCommandParser.LIST_KEYWORDS`. -/
def LIST_KEYWORDS : List Str :=
  ["?all".data, "list".data, "show all".data, "show everything".data, "list all".data,
   "list medicines".data, "show medicines".data, "what do we have".data, "inventory".data]

/-- The body of `ListCommandParser.parse`: exact equality with, or a prefix
of, any list keyword classifies the text as a list command. -/
def listParserParse (text : Str) : Option ParsedCommand :=
  let textLower := trimL (lowerL text)
  if LIST_KEYWORDS.any (fun k => textLower == k || isPrefB k textLower) then
    some { command_type := .list, confidence := 1 }
  else none

/-- The dispatcher `CommandParser.parse`: strip the input, try List, Add,
Use, Search in that fixed order, set `raw_text` on the first hit, and fall
back to an Unknown intent with confidence 0. -/
def commandParse (text : Str) : Except PyExn ParsedCommand :=
  let t := trimL text
  match listParserParse t with
  | some r => .ok { r with raw_text := t }
  | none => do
    match ← addParserParse t with
    | some r => pure { r with raw_text := t }
    | none =>
      match ← useParserParse t with
      | some r => pure { r with raw_text := t }
      | none =>
        match ← searchParserParse t with
        | some r => pure { r with raw_text := t }
        | none => pure { command_type := .unknown, raw_text := t, confidence := 0 }

/-- The `Medicine` entity of `src/database.py` (one row of the medicines
table).  Timestamps are integers ordered like the ISO strings that the SQL
compares; the expiry date is kept as its stored text. -/
structure Medicine where
  id : Nat
  name : Str
  quantity : Int
  unit : Str
  expiry_date : Option Str
  location : Option Str
  added_by_user_id : Int
  added_by_username : Str
  added_date : Int
  group_chat_id : Int
  last_updated : Int
deriving DecidableEq, Repr

/-- The `MedicineData` transfer object passed to `add_medicine`. -/
structure MedicineData where
  name : Str
  quantity : Int
  unit : Str
  expiry_date : Option Str
  location : Option Str
  added_by_user_id : Int
  added_by_username : Str
  group_chat_id : Int
deriving DecidableEq, Repr

/-- The `Activity` entity (one row of the activity_log table). -/
structure Activity where
  id : Nat
  medicine_id : Nat
  action : Str
  quantity_change : Option Int
  user_id : Int
  username : Str
  timestamp : Int
  group_chat_id : Int
deriving DecidableEq, Repr

/-- Typed database errors: `notFound` and `storageFailure` are Python
`DatabaseError` with the respective messages, `insufficientStock` is
`InsufficientStockError(available, requested)`. -/
inductive DbErr where
  | notFound (medicine_id : Nat)
  | storageFailure
  | insufficientStock (available : Int) (requested : Int)
deriving DecidableEq, Repr

/-- The persistent state: both tables in rowid (insertion) order together
with the AUTOINCREMENT counters. -/
structure DB where
  medicines : List Medicine
  nextMedId : Nat
  activity : List Activity
  nextActId : Nat
deriving DecidableEq, Repr

/-- Well-formedness delivered by the schema: row ids are pairwise distinct
(AUTOINCREMENT primary key) and below the next id. -/
def DB.WF (db : DB) : Prop :=
  (db.medicines.map Medicine.id).Nodup ∧
    ∀ m ∈ db.medicines, m.id < db.nextMedId

instance (db : DB) : Decidable db.WF := by
  unfold DB.WF
  infer_instance

/-- SQL `COALESCE(new, old)` with a possibly-NULL bound parameter. -/
def coalesce (a b : Option Str) : Option Str :=
  match a with
  | some v => some v
  | none => b

/-- The row predicate of `find_by_exact_name`:
`LOWER(name) = LOWER(?) AND group_chat_id = ?`. -/
def nameGroupMatch (name : Str) (g : Int) (m : Medicine) : Bool :=
  lowerL m.name == lowerL name && m.group_chat_id == g

/-- `MedicineRepository.find_by_exact_name`: `fetch_one` returns the first
matching row in rowid order. -/
def find_by_exact_name (name : Str) (g : Int) (db : DB) : Option Medicine :=
  db.medicines.find? (nameGroupMatch name g)

/-- `MedicineRepository.get_by_id`: lookup by id within the group. -/
def get_by_id (medicine_id : Nat) (g : Int) (db : DB) : Option Medicine :=
  db.medicines.find? (fun m => m.id == medicine_id && m.group_chat_id == g)

/-- The UPDATE statement of `add_medicine`: set quantity, refresh
`last_updated`, and COALESCE expiry/location, on every row with the id
(the statement filters on id only). -/
def applyUpsert (medId : Nat) (newQ : Int) (data : MedicineData) (now : Int)
    (m : Medicine) : Medicine :=
  if m.id == medId then
    { m with quantity := newQ, last_updated := now,
             expiry_date := coalesce data.expiry_date m.expiry_date,
             location := coalesce data.location m.location }
  else m

/-- The row built by the INSERT statement of `add_medicine` (the id is the
AUTOINCREMENT value, both timestamp columns default to now). -/
def freshRow (data : MedicineData) (now : Int) (db : DB) : Medicine :=
  { id := db.nextMedId, name := data.name, quantity := data.quantity,
    unit := data.unit, expiry_date := data.expiry_date, location := data.location,
    added_by_user_id := data.added_by_user_id,
    added_by_username := data.added_by_username, added_date := now,
    group_chat_id := data.group_chat_id, last_updated := now }

/-- `MedicineRepository.add_medicine`: update the quantity of an existing
row with the same case-insensitive name in the group, otherwise insert a
fresh row; either way re-fetch the row by id and return it.  The second
component is the database after the call. -/
def add_medicine (data : MedicineData) (now : Int) (db : DB) :
    Except DbErr Medicine × DB :=
  match find_by_exact_name data.name data.group_chat_id db with
  | some existing =>
    let newQ := existing.quantity + data.quantity
    let db1 : DB := { db with medicines := db.medicines.map (applyUpsert existing.id newQ data now) }
    match db1.medicines.find? (fun m => m.id == existing.id) with
    | some row => (.ok row, db1)
    | none => (.error .storageFailure, db1)
  | none =>
    let db1 : DB := { db with medicines := db.medicines ++ [freshRow data now db],
                              nextMedId := db.nextMedId + 1 }
    match db1.medicines.find? (fun m => m.id == db.nextMedId) with
    | some row => (.ok row, db1)
    | none => (.error .storageFailure, db1)

/-- The read phase of `update_quantity`: the SELECT scoped by id and group.
The source issues it as a plain SELECT on an autocommit connection — there
is no transaction and no row lock around the subsequent UPDATE. -/
def uqRead (medicine_id : Nat) (g : Int) (db : DB) : Option Medicine :=
  db.medicines.find? (fun m => m.id == medicine_id && m.group_chat_id == g)

/-- The write phase of `update_quantity`: the UPDATE statement, which
filters on id only and persists the quantity computed from the read. -/
def uqWrite (medicine_id : Nat) (newQ : Int) (now : Int) (db : DB) : DB :=
  { db with medicines := db.medicines.map (fun m =>
      if m.id == medicine_id then { m with quantity := newQ, last_updated := now } else m) }

/-- `MedicineRepository.update_quantity`: read the row, fail with
`InsufficientStockError(available=quantity, requested=abs(delta))` when the
new quantity would be negative (before any write), otherwise persist the
new quantity and re-fetch the row. -/
def update_quantity (medicine_id : Nat) (delta : Int) (g : Int) (now : Int)
    (db : DB) : Except DbErr Medicine × DB :=
  match uqRead medicine_id g db with
  | none => (.error (.notFound medicine_id), db)
  | some row =>
    let newQ := row.quantity + delta
    if newQ < 0 then
      (.error (.insufficientStock row.quantity |delta|), db)
    else
      let db1 := uqWrite medicine_id newQ now db
      match db1.medicines.find? (fun m => m.id == medicine_id) with
      | some updated => (.ok updated, db1)
      | none => (.error .storageFailure, db1)

/-- Stable insertion used by the sorts: `x` passes over the elements for
which `stay` holds and is placed in front of the first one for which it
does not, so elements compared equal keep their original order. -/
def insBefore (stay : α → α → Bool) (x : α) : List α → List α
  | [] => [x]
  | y :: ys => if stay y x then y :: insBefore stay x ys else x :: y :: ys

/-- Stable sort (the Python `list.sort` and SQL ORDER BY results are
stable with respect to the scan order). -/
def sortStable (stay : α → α → Bool) : List α → List α
  | [] => []
  | x :: xs => insBefore stay x (sortStable stay xs)

/-- The comparison used by `matches.sort(key=lambda x: x[1], reverse=True)`:
an element already placed stays in front of `x` exactly when its score is
strictly larger, which yields the stable descending order. -/
def scoreStay (y x : Medicine × Nat) : Bool := x.2 < y.2

/-- The candidate pass of `find_by_name_fuzzy`: scan the group's rows in
rowid order, score each against the query (both lowercased, as at the
`fuzz.ratio` call site), and keep those at or above the threshold. -/
def fuzzyCandidates (ratio : Str → Str → Nat) (name : Str) (g : Int)
    (threshold : Nat) (db : DB) : List (Medicine × Nat) :=
  (db.medicines.filter (fun m => m.group_chat_id == g)).filterMap (fun m =>
    let score := ratio (lowerL name) (lowerL m.name)
    if threshold ≤ score then some (m, score) else none)

/-- `MedicineRepository.find_by_name_fuzzy`: the kept candidates sorted by
score descending, stably.  The external `fuzzywuzzy` scorer is the `ratio`
parameter. -/
def find_by_name_fuzzy (ratio : Str → Str → Nat) (name : Str) (g : Int)
    (threshold : Nat) (db : DB) : List (Medicine × Nat) :=
  sortStable scoreStay (fuzzyCandidates ratio name g threshold db)

/-- The comparison of `get_all`'s ORDER BY name (the column is declared
COLLATE NOCASE, so the order is case-insensitive lexicographic). -/
def charListLt : Str → Str → Bool
  | [], [] => false
  | [], _ :: _ => true
  | _ :: _, [] => false
  | a :: as, b :: bs => a < b || (a == b && charListLt as bs)

/-- `MedicineRepository.get_all`: the group's rows ordered by name. -/
def get_all (g : Int) (db : DB) : List Medicine :=
  sortStable (fun y x => charListLt (lowerL y.name) (lowerL x.name))
    (db.medicines.filter (fun m => m.group_chat_id == g))

/-- `MedicineRepository.delete_medicine`: DELETE scoped by id and group;
returns whether a row was removed. -/
def delete_medicine (medicine_id : Nat) (g : Int) (db : DB) : Bool × DB :=
  let keep := db.medicines.filter (fun m => !(m.id == medicine_id && m.group_chat_id == g))
  (decide (keep.length < db.medicines.length),
   { db with medicines := keep })

/-- `ActivityLogRepository.log_activity`: INSERT a ledger row (the foreign
key on `medicine_id` is enforced, `PRAGMA foreign_keys = ON`), then fetch it
back. -/
def log_activity (medicine_id : Nat) (action : Str) (user_id : Int)
    (username : Str) (g : Int) (quantity_change : Option Int) (now : Int)
    (db : DB) : Except DbErr Activity × DB :=
  if db.medicines.all (fun m => m.id != medicine_id) then
    (.error .storageFailure, db)
  else
    let row : Activity :=
      { id := db.nextActId, medicine_id := medicine_id, action := action,
        quantity_change := quantity_change, user_id := user_id,
        username := username, timestamp := now, group_chat_id := g }
    (.ok row, { db with activity := db.activity ++ [row], nextActId := db.nextActId + 1 })

/-- Count of the occurrences of each key, keys in first-appearance order
(the GROUP BY result rows of the stats queries). -/
def groupCounts (keys : List Str) : List (Str × Nat) :=
  keys.foldl (fun acc k =>
    if acc.any (fun p => p.1 == k) then
      acc.map (fun p => if p.1 == k then (p.1, p.2 + 1) else p)
    else acc ++ [(k, 1)]) []

/-- The result shape of `ActivityLogRepository.get_stats`. -/
structure Stats where
  total_activities : Nat
  activities_by_action : List (Str × Nat)
  most_active_users : List (Str × Nat)
  most_used_medicines : List (Str × Nat)
  period_days : Int
deriving DecidableEq, Repr

/-- Stay-relation for the ORDER BY count DESC of the top-5 queries. -/
def countStay (y x : Str × Nat) : Bool := x.2 < y.2

/-- The in-window, in-group ledger entries every stats query restricts to
(`group_chat_id = ? AND timestamp >= ?` with cutoff `now - days`). -/
def statsWindow (g : Int) (days : Int) (now : Int) (db : DB) : List Activity :=
  db.activity.filter (fun a => a.group_chat_id == g && now - days ≤ a.timestamp)

/-- `ActivityLogRepository.get_stats`: total count, counts grouped by
action, the five most active users (count descending) and the five most
used medicines (usage count descending, `action = 'used'` joined to the
medicines table by id). -/
def get_stats (g : Int) (days : Int) (now : Int) (db : DB) : Stats :=
  let entries := statsWindow g days now db
  { total_activities := entries.length,
    activities_by_action := groupCounts (entries.map Activity.action),
    most_active_users :=
      (sortStable countStay (groupCounts (entries.map Activity.username))).take 5,
    most_used_medicines :=
      (sortStable countStay (groupCounts
        ((entries.filter (fun a => a.action == "used".data)).filterMap (fun a =>
          (db.medicines.find? (fun m => m.id == a.medicine_id)).map Medicine.name)))).take 5,
    period_days := days }

/-- Dictionary lookup in a GROUP BY result (used to state what
`activities_by_action` contains). -/
def countFor (l : List (Str × Nat)) (k : Str) : Option Nat :=
  (l.find? (fun p => p.1 == k)).map Prod.snd

/-- Outcome of the fuzzy-resolution branches in `src/commands.py`. -/
inductive Resolution where
  | noMatch : Resolution
  | resolved (m : Medicine × Nat) : Resolution
  | ambiguous (cands : List (Medicine × Nat)) : Resolution
deriving DecidableEq, Repr

/-- The resolution branch of `handle_use_medicine` (commands.py lines
235-255): no matches is reported as not found; a single match, or a top
match with a perfect score of 100, is taken outright; otherwise the first
five matches are presented for disambiguation. -/
def resolveUseMatches : List (Medicine × Nat) → Resolution
  | [] => .noMatch
  | [x] => .resolved x
  | x :: y :: rest =>
    if x.2 == 100 then .resolved x else .ambiguous ((x :: y :: rest).take 5)

/-- The resolution branch of `handle_delete_medicine` (commands.py lines
462-478): ambiguous exactly when there are several matches and the top
score is below 100. -/
def resolveDeleteMatches : List (Medicine × Nat) → Resolution
  | [] => .noMatch
  | x :: rest =>
    if decide (1 ≤ rest.length) && decide (x.2 < 100) then
      .ambiguous ((x :: rest).take 5)
    else .resolved x

/-- A concrete similarity scorer satisfying the Fuzzy Matcher contract of
the spec (scores in [0,100], 100 exactly on equal inputs), used to
instantiate the `ratio` parameter in witnesses. -/
def eqRatio (a b : Str) : Nat := if a == b then 100 else 0

/-- The empty database (AUTOINCREMENT counters start at 1). -/
def emptyDB : DB := { medicines := [], nextMedId := 1, activity := [], nextActId := 1 }

def dataNapa : MedicineData :=
  { name := "Napa".data, quantity := 10, unit := "tablets".data, expiry_date := none,
    location := none, added_by_user_id := 42, added_by_username := "Alice".data,
    group_chat_id := 7 }

def dataNapaLower : MedicineData :=
  { name := "napa".data, quantity := 5, unit := "tablets".data,
    expiry_date := some "2025-12".data, location := some "Cabinet".data,
    added_by_user_id := 43, added_by_username := "Bob".data, group_chat_id := 7 }

def medNapa : Medicine :=
  { id := 1, name := "Napa".data, quantity := 5, unit := "tablets".data,
    expiry_date := none, location := none, added_by_user_id := 42,
    added_by_username := "Alice".data, added_date := 0, group_chat_id := 7,
    last_updated := 0 }

def medSeclo : Medicine :=
  { id := 2, name := "Seclo".data, quantity := 8, unit := "capsules".data,
    expiry_date := none, location := none, added_by_user_id := 50,
    added_by_username := "Carol".data, added_date := 0, group_chat_id := 9,
    last_updated := 0 }

def dbOne : DB := { medicines := [medNapa], nextMedId := 2, activity := [], nextActId := 1 }

def dbTwoGroups : DB :=
  { medicines := [medNapa, medSeclo], nextMedId := 3, activity := [], nextActId := 1 }

/-- A single-tablet stock used by the concurrency scenario. -/
def medLastTab : Medicine :=
  { id := 1, name := "Napa".data, quantity := 1, unit := "tablets".data,
    expiry_date := none, location := none, added_by_user_id := 42,
    added_by_username := "Alice".data, added_date := 0, group_chat_id := 7,
    last_updated := 0 }

def dbRace : DB := { medicines := [medLastTab], nextMedId := 2, activity := [], nextActId := 1 }

def actAdded : Activity :=
  { id := 1, medicine_id := 1, action := "added".data, quantity_change := some 10,
    user_id := 42, username := "Alice".data, timestamp := 90, group_chat_id := 7 }

def actUsed : Activity :=
  { id := 2, medicine_id := 1, action := "used".data, quantity_change := some (-2),
    user_id := 43, username := "Bob".data, timestamp := 95, group_chat_id := 7 }

def actSearched : Activity :=
  { id := 3, medicine_id := 1, action := "searched".data, quantity_change := none,
    user_id := 42, username := "Alice".data, timestamp := 100, group_chat_id := 7 }

/-- A ledger entry far outside the 30-day window of the stats scenario. -/
def actStale : Activity :=
  { id := 4, medicine_id := 1, action := "used".data, quantity_change := some (-1),
    user_id := 43, username := "Bob".data, timestamp := 10, group_chat_id := 7 }

def dbStats : DB :=
  { medicines := [medNapa], nextMedId := 2,
    activity := [actAdded, actUsed, actSearched], nextActId := 4 }

theorem insBefore_perm (stay : α → α → Bool) (x : α) (l : List α) :
    List.Perm (insBefore stay x l) (x :: l) := by
  induction l with
  | nil => simp [insBefore]
  | cons y ys ih =>
    cases h : stay y x with
    | true =>
      simp only [insBefore, h, if_true]
      exact (List.Perm.cons y ih).trans (List.Perm.swap x y ys)
    | false => simp [insBefore, h]

theorem sortStable_perm (stay : α → α → Bool) (l : List α) :
    List.Perm (sortStable stay l) l := by
  induction l with
  | nil => simp [sortStable]
  | cons x xs ih =>
    exact (insBefore_perm stay x (sortStable stay xs)).trans (List.Perm.cons x ih)

theorem mem_sortStable (stay : α → α → Bool) (l : List α) (a : α) :
    a ∈ sortStable stay l ↔ a ∈ l :=
  (sortStable_perm stay l).mem_iff

theorem pairwise_insBefore_keyDesc (key : α → Nat) (x : α) (l : List α)
    (h : l.Pairwise (fun a b => key b ≤ key a)) :
    (insBefore (fun y z => decide (key z < key y)) x l).Pairwise
      (fun a b => key b ≤ key a) := by
  induction l with
  | nil => simp [insBefore]
  | cons y ys ih =>
    rcases List.pairwise_cons.mp h with ⟨hy, hys⟩
    by_cases hst : key x < key y
    · have hb : decide (key x < key y) = true := by simp [hst]
      simp only [insBefore, hb, if_true]
      refine List.pairwise_cons.mpr ⟨?_, ih hys⟩
      intro z hz
      rcases List.mem_cons.mp
        ((insBefore_perm (fun y z => decide (key z < key y)) x ys).mem_iff.mp hz) with
        hzx | hz
      · subst hzx
        exact Nat.le_of_lt hst
      · exact hy z hz
    · have hb : decide (key x < key y) = false := by simp [hst]
      simp only [insBefore, hb, if_false]
      refine List.pairwise_cons.mpr ⟨?_, h⟩
      intro z hz
      rcases List.mem_cons.mp hz with hzy | hz
      · subst hzy
        exact Nat.le_of_not_lt hst
      · exact Nat.le_trans (hy z hz) (Nat.le_of_not_lt hst)

theorem pairwise_sortStable_keyDesc (key : α → Nat) (l : List α) :
    (sortStable (fun y z => decide (key z < key y)) l).Pairwise
      (fun a b => key b ≤ key a) := by
  induction l with
  | nil => simp [sortStable]
  | cons x xs ih => exact pairwise_insBefore_keyDesc key x _ ih

theorem filter_insBefore_keyDesc (key : α → Nat) (k : Nat) (x : α) (l : List α) :
    (insBefore (fun y z => decide (key z < key y)) x l).filter (fun a => key a == k) =
      (x :: l).filter (fun a => key a == k) := by
  induction l with
  | nil => rfl
  | cons y ys ih =>
    by_cases hst : key x < key y
    · have hb : decide (key x < key y) = true := by simp [hst]
      simp only [insBefore, hb, if_true]
      by_cases hyk : key y = k
      · have hxk : (key x == k) = false := by
          refine beq_eq_false_iff_ne.mpr fun hc => ?_
          omega
        have hyk2 : (key y == k) = true := by simp [hyk]
        simp only [List.filter_cons, hyk2, if_true, ih, hxk]
        simp
      · have hyk2 : (key y == k) = false := by simp [hyk]
        simp only [List.filter_cons, hyk2, ih]
        simp
    · have hb : decide (key x < key y) = false := by simp [hst]
      simp only [insBefore, hb]
      simp

theorem filter_sortStable_keyDesc (key : α → Nat) (k : Nat) (l : List α) :
    (sortStable (fun y z => decide (key z < key y)) l).filter (fun a => key a == k) =
      l.filter (fun a => key a == k) := by
  induction l with
  | nil => rfl
  | cons x xs ih =>
    have h1 := filter_insBefore_keyDesc key k x
      (sortStable (fun y z => decide (key z < key y)) xs)
    have h2 : (x :: sortStable (fun y z => decide (key z < key y)) xs).filter
        (fun a => key a == k) = (x :: xs).filter (fun a => key a == k) := by
      simp only [List.filter_cons, ih]
    exact h1.trans h2

theorem find?_append_of_none (p : α → Bool) (l1 l2 : List α)
    (h : l1.find? p = none) : (l1 ++ l2).find? p = l2.find? p := by
  rw [List.find?_append, h, Option.none_or]

theorem find_by_id_of_nodup (l : List Medicine) (m : Medicine)
    (hn : (l.map Medicine.id).Nodup) (hm : m ∈ l) :
    l.find? (fun x => x.id == m.id) = some m := by
  induction l with
  | nil => cases hm
  | cons h t ih =>
    rw [List.map_cons, List.nodup_cons] at hn
    rcases List.mem_cons.mp hm with rfl | hmt
    · exact List.find?_cons_of_pos _ (by simp)
    · have hne : (h.id == m.id) = false := by
        refine beq_eq_false_iff_ne.mpr fun he => hn.1 ?_
        exact he ▸ List.mem_map_of_mem Medicine.id hmt
      rw [List.find?_cons_of_neg _ (by simp [hne])]
      exact ih hn.2 hmt

theorem count_eq_one_of_nodup_ids (l : List Medicine) (m : Medicine)
    (hn : (l.map Medicine.id).Nodup) (hm : m ∈ l) : l.count m = 1 :=
  List.count_eq_one_of_mem (hn.of_map Medicine.id) hm

theorem filterMap_eq_singleton (f : α → Option β) (l : List α) (m : α) (y : β)
    [DecidableEq α]
    (hcount : l.count m = 1) (hm : f m = some y)
    (hothers : ∀ x ∈ l, x ≠ m → f x = none) : l.filterMap f = [y] := by
  induction l with
  | nil => simp at hcount
  | cons a t ih =>
    by_cases ha : a = m
    · subst ha
      rw [List.count_cons_self] at hcount
      have ht : t.count a = 0 := by omega
      have hnot : ∀ x ∈ t, f x = none := by
        intro x hx
        refine hothers x (List.mem_cons_of_mem a hx) fun hxa => ?_
        rw [hxa] at hx
        exact absurd (List.count_eq_zero.mp ht) (fun h2 => h2 hx)
      rw [List.filterMap_cons_some hm,
          List.filterMap_eq_nil_iff.mpr hnot]
    · have hfa : f a = none := hothers a (List.mem_cons_self a t) ha
      rw [List.filterMap_cons_none hfa]
      rw [List.count_cons_of_ne (by exact fun h2 => ha h2.symm)] at hcount
      exact ih hcount fun x hx => hothers x (List.mem_cons_of_mem a hx)

theorem map_applyUpsert_of_ne (i : Nat) (q : Int) (d : MedicineData) (now : Int)
    (l : List Medicine) (h : ∀ x ∈ l, x.id ≠ i) :
    l.map (applyUpsert i q d now) = l := by
  have hall : ∀ x ∈ l, applyUpsert i q d now x = id x := by
    intro x hx
    unfold applyUpsert
    rw [if_neg (by simp [h x hx])]
    rfl
  rw [List.map_congr_left hall, List.map_id]

/-- Claim C1: calling `add_medicine` twice with the same case-insensitive
name in the same group yields a record with the summed quantity and the id
created by the first call; on the second call expiry and location are
replaced only when the new value is non-null, so a null new value never
erases the stored one. -/
theorem add_medicine_upsert (d1 d2 : MedicineData) (db : DB) (now1 now2 : Int)
    (hwf : db.WF)
    (hnew : find_by_exact_name d1.name d1.group_chat_id db = none)
    (hname : lowerL d2.name = lowerL d1.name)
    (hgrp : d2.group_chat_id = d1.group_chat_id) :
    ∃ m1 db1 m2 db2,
      add_medicine d1 now1 db = (.ok m1, db1) ∧
      add_medicine d2 now2 db1 = (.ok m2, db2) ∧
      m2.id = m1.id ∧
      m1.quantity = d1.quantity ∧
      m2.quantity = d1.quantity + d2.quantity ∧
      m2.expiry_date = coalesce d2.expiry_date d1.expiry_date ∧
      m2.location = coalesce d2.location d1.location := by
  set nr : Medicine := freshRow d1 now1 db with hnr
  set dbA : DB := { db with medicines := db.medicines ++ [nr], nextMedId := db.nextMedId + 1 } with hdbA
  set upd : Medicine := applyUpsert nr.id (nr.quantity + d2.quantity) d2 now2 nr with hupd
  set dbB : DB := { db with medicines := db.medicines ++ [upd], nextMedId := db.nextMedId + 1 } with hdbB
  have hfresh : ∀ x ∈ db.medicines, (x.id == db.nextMedId) = false := by
    intro x hx
    exact beq_eq_false_iff_ne.mpr (Nat.ne_of_lt (hwf.2 x hx))
  have hprefnone : db.medicines.find? (fun m => m.id == db.nextMedId) = none :=
    List.find?_eq_none.mpr fun x hx => by simp [hfresh x hx]
  have hnrid : nr.id = db.nextMedId := rfl
  have hupdid : upd.id = db.nextMedId := by
    rw [hupd]
    unfold applyUpsert
    rw [if_pos (by simp)]
    exact hnrid
  have hfind1 : (db.medicines ++ [nr]).find? (fun m => m.id == db.nextMedId) = some nr := by
    rw [find?_append_of_none _ _ _ hprefnone]
    simp [List.find?, hnr, freshRow]
  have e1 : add_medicine d1 now1 db = (.ok nr, dbA) := by
    have h0 : add_medicine d1 now1 db =
        match (db.medicines ++ [nr]).find? (fun m => m.id == db.nextMedId) with
        | some row => (Except.ok row, dbA)
        | none => (Except.error DbErr.storageFailure, dbA) := by
      unfold add_medicine
      rw [hnew]
    rw [h0, hfind1]
  have hnomatch : ∀ x ∈ db.medicines,
      nameGroupMatch d2.name d2.group_chat_id x = false := by
    intro x hx
    have h1 := List.find?_eq_none.mp hnew x hx
    unfold nameGroupMatch at h1 ⊢
    rw [hname, hgrp]
    simpa using h1
  have hnrmatch : nameGroupMatch d2.name d2.group_chat_id nr = true := by
    rw [hnr]
    unfold nameGroupMatch freshRow
    simp [hname, hgrp]
  have hfind2 : find_by_exact_name d2.name d2.group_chat_id dbA = some nr := by
    unfold find_by_exact_name
    rw [hdbA]
    rw [find?_append_of_none _ _ _
      (List.find?_eq_none.mpr fun x hx => by simp [hnomatch x hx])]
    simp [List.find?, hnrmatch]
  have hmapped : (db.medicines ++ [nr]).map
      (applyUpsert nr.id (nr.quantity + d2.quantity) d2 now2) = db.medicines ++ [upd] := by
    rw [List.map_append]
    congr 1
    exact map_applyUpsert_of_ne _ _ _ _ _ fun x hx =>
      hnrid ▸ Nat.ne_of_lt (hwf.2 x hx)
  have hupdated : upd =
      { nr with quantity := nr.quantity + d2.quantity, last_updated := now2,
                expiry_date := coalesce d2.expiry_date nr.expiry_date,
                location := coalesce d2.location nr.location } := by
    rw [hupd]
    unfold applyUpsert
    rw [if_pos (by simp)]
  have hfind3 : (db.medicines ++ [upd]).find? (fun m => m.id == nr.id) = some upd := by
    rw [hnrid]
    rw [find?_append_of_none _ _ _
      (List.find?_eq_none.mpr fun x hx => by simp [hfresh x hx])]
    simp [List.find?, hupdid]
  have e2 : add_medicine d2 now2 dbA = (.ok upd, dbB) := by
    have h0 : add_medicine d2 now2 dbA =
        match ((db.medicines ++ [nr]).map
            (applyUpsert nr.id (nr.quantity + d2.quantity) d2 now2)).find?
            (fun m => m.id == nr.id) with
        | some row => (Except.ok row,
            { db with
                medicines := (db.medicines ++ [nr]).map
                  (applyUpsert nr.id (nr.quantity + d2.quantity) d2 now2),
                nextMedId := db.nextMedId + 1 })
        | none => (Except.error DbErr.storageFailure,
            { db with
                medicines := (db.medicines ++ [nr]).map
                  (applyUpsert nr.id (nr.quantity + d2.quantity) d2 now2),
                nextMedId := db.nextMedId + 1 }) := by
      unfold add_medicine
      rw [hfind2]
    rw [h0, hmapped, hfind3]
  refine ⟨nr, dbA, upd, dbB, e1, e2, ?_, ?_, ?_, ?_, ?_⟩ <;>
    simp [hupdated, hnr, freshRow]

/-- Claim C2: for a stored record, `update_quantity` with a delta that
would drive the quantity negative fails with an insufficient-stock error
carrying exactly the available quantity and the absolute value of the
delta, leaving the database unchanged; with a non-negative result it
persists the new value and returns the updated record. -/
theorem update_quantity_contract (db : DB) (i : Nat) (g delta now : Int) (m : Medicine)
    (hwf : db.WF) (hm : get_by_id i g db = some m) :
    (m.quantity + delta < 0 →
      update_quantity i delta g now db =
        (.error (.insufficientStock m.quantity |delta|), db)) ∧
    (0 ≤ m.quantity + delta →
      update_quantity i delta g now db =
        (.ok { m with quantity := m.quantity + delta, last_updated := now },
         uqWrite i (m.quantity + delta) now db)) := by
  have hread : uqRead i g db = some m := hm
  have hm2 : db.medicines.find? (fun x => x.id == i && x.group_chat_id == g) = some m := hm
  have hpm := List.find?_some hm2
  have hmem : m ∈ db.medicines := List.mem_of_find?_eq_some hm2
  have hid : m.id = i ∧ m.group_chat_id = g := by simpa using hpm
  constructor
  · intro hneg
    simp only [update_quantity, hread]
    rw [if_pos hneg]
  · intro hpos
    have hfind : (uqWrite i (m.quantity + delta) now db).medicines.find?
        (fun x => x.id == i) =
        some { m with quantity := m.quantity + delta, last_updated := now } := by
      unfold uqWrite
      rw [List.find?_map]
      have hcomp : ((fun x : Medicine => x.id == i) ∘ (fun z : Medicine =>
          if z.id == i then { z with quantity := m.quantity + delta, last_updated := now }
          else z)) = (fun x : Medicine => x.id == i) := by
        funext z
        by_cases hz : z.id = i
        · simp [hz]
        · simp [hz]
      rw [hcomp]
      have hbase : db.medicines.find? (fun x => x.id == i) = some m := by
        rw [← hid.1]
        exact find_by_id_of_nodup db.medicines m hwf.1 hmem
      rw [hbase]
      show some (if m.id == i then
        { m with quantity := m.quantity + delta, last_updated := now } else m) = _
      rw [if_pos (by simp [hid.1])]
    simp only [update_quantity, hread]
    rw [if_neg (by omega)]
    simp only [hfind]

theorem add_medicine_upsert_witness :
    (emptyDB.WF ∧
     find_by_exact_name dataNapa.name dataNapa.group_chat_id emptyDB = none ∧
     lowerL dataNapaLower.name = lowerL dataNapa.name ∧
     dataNapaLower.group_chat_id = dataNapa.group_chat_id) ∧
    (∃ m1 db1 m2 db2,
      add_medicine dataNapa 1 emptyDB = (.ok m1, db1) ∧
      add_medicine dataNapaLower 2 db1 = (.ok m2, db2) ∧
      m2.id = m1.id ∧
      m1.quantity = dataNapa.quantity ∧
      m2.quantity = dataNapa.quantity + dataNapaLower.quantity ∧
      m2.expiry_date = coalesce dataNapaLower.expiry_date dataNapa.expiry_date ∧
      m2.location = coalesce dataNapaLower.location dataNapa.location) :=
  ⟨⟨by decide, by decide, by decide, by decide⟩,
   add_medicine_upsert dataNapa dataNapaLower emptyDB 1 2
     (by decide) (by decide) (by decide) (by decide)⟩

theorem update_quantity_contract_witness :
    (dbOne.WF ∧ get_by_id 1 7 dbOne = some medNapa ∧
     medNapa.quantity + (-7) < 0 ∧ (0 : Int) ≤ medNapa.quantity + 3) ∧
    update_quantity 1 (-7) 7 1 dbOne =
      (.error (.insufficientStock medNapa.quantity |(-7 : Int)|), dbOne) ∧
    update_quantity 1 3 7 1 dbOne =
      (.ok { medNapa with quantity := medNapa.quantity + 3, last_updated := 1 },
       uqWrite 1 (medNapa.quantity + 3) 1 dbOne) :=
  ⟨⟨by decide, by decide, by decide, by decide⟩,
   (update_quantity_contract dbOne 1 7 (-7) 1 medNapa (by decide) (by decide)).1 (by decide),
   (update_quantity_contract dbOne 1 7 3 1 medNapa (by decide) (by decide)).2 (by decide)⟩

/-- Claim C4: every store operation is scoped by group id — a name stored
only under another group is invisible to `find_by_exact_name`, every read
returns only records of the given group, and the mutations leave records
of other groups untouched. -/
theorem tenant_isolation (db : DB) (g : Int) (hwf : db.WF) :
    (∀ n, (∀ m ∈ db.medicines, lowerL m.name = lowerL n → m.group_chat_id ≠ g) →
      find_by_exact_name n g db = none) ∧
    (∀ n m, find_by_exact_name n g db = some m → m.group_chat_id = g) ∧
    (∀ ratio n t m s, (m, s) ∈ find_by_name_fuzzy ratio n g t db → m.group_chat_id = g) ∧
    (∀ i m, get_by_id i g db = some m → m.group_chat_id = g) ∧
    (∀ m, m ∈ get_all g db → m.group_chat_id = g) ∧
    (∀ i delta now m, m ∈ db.medicines → m.group_chat_id ≠ g →
      m ∈ (update_quantity i delta g now db).2.medicines) ∧
    (∀ i m, m ∈ db.medicines → m.group_chat_id ≠ g →
      m ∈ (delete_medicine i g db).2.medicines) := by
  refine ⟨?_, ?_, ?_, ?_, ?_, ?_, ?_⟩
  · intro n h
    refine List.find?_eq_none.mpr fun x hx hpx => ?_
    have hx2 : lowerL x.name = lowerL n ∧ x.group_chat_id = g := by
      unfold nameGroupMatch at hpx
      simpa using hpx
    exact h x hx hx2.1 hx2.2
  · intro n m hm
    have := List.find?_some hm
    unfold nameGroupMatch at this
    simp only [Bool.and_eq_true, beq_iff_eq] at this
    exact this.2
  · intro ratio n t m s hmem
    have h1 : (m, s) ∈ fuzzyCandidates ratio n g t db :=
      (mem_sortStable _ _ _).mp hmem
    rcases List.mem_filterMap.mp h1 with ⟨a, ha, hfa⟩
    have hag : a.group_chat_id = g := by
      have := List.of_mem_filter ha
      simpa using this
    by_cases hth : t ≤ ratio (lowerL n) (lowerL a.name)
    · rw [if_pos hth] at hfa
      cases hfa
      exact hag
    · rw [if_neg hth] at hfa
      cases hfa
  · intro i m hm
    have := List.find?_some hm
    simp only [Bool.and_eq_true, beq_iff_eq] at this
    exact this.2
  · intro m hm
    have h1 : m ∈ db.medicines.filter (fun x => x.group_chat_id == g) :=
      (mem_sortStable _ _ _).mp hm
    have := List.of_mem_filter h1
    simpa using this
  · intro i delta now m hm hne
    rcases hread : uqRead i g db with _ | row
    · simp only [update_quantity, hread]
      exact hm
    · have hrow := List.find?_some hread
      have hrowmem := List.mem_of_find?_eq_some hread
      simp only [Bool.and_eq_true, beq_iff_eq] at hrow
      by_cases hq : row.quantity + delta < 0
      · simp only [update_quantity, hread]
        rw [if_pos hq]
        exact hm
      · simp only [update_quantity, hread]
        rw [if_neg hq]
        have hmne : m.id ≠ i := by
          intro hmi
          have hrid : row.id = m.id := by rw [hrow.1, hmi]
          have : row = m := by
            have h1 := find_by_id_of_nodup db.medicines m hwf.1 hm
            have h2 := find_by_id_of_nodup db.medicines row hwf.1 hrowmem
            rw [hrid] at h2
            rw [h1] at h2
            exact ((Option.some.injEq _ _).mp h2).symm
          exact hne (this ▸ hrow.2)
        have hfm : (fun z : Medicine =>
            if z.id == i then { z with quantity := row.quantity + delta, last_updated := now }
            else z) m = m := by
          simp only []
          rw [if_neg (by simp [hmne])]
        have : m ∈ (uqWrite i (row.quantity + delta) now db).medicines := by
          unfold uqWrite
          have := List.mem_map_of_mem (fun z : Medicine =>
            if z.id == i then { z with quantity := row.quantity + delta, last_updated := now }
            else z) hm
          rw [hfm] at this
          exact this
        rcases hfind : (uqWrite i (row.quantity + delta) now db).medicines.find?
            (fun x => x.id == i) with _ | updated
        · simp only [hfind]
          exact this
        · simp only [hfind]
          exact this
  · intro i m hm hne
    unfold delete_medicine
    simp only []
    refine List.mem_filter.mpr ⟨hm, ?_⟩
    simp [hne]

theorem tenant_isolation_witness :
    dbTwoGroups.WF ∧ find_by_exact_name "Seclo".data 7 dbTwoGroups = none :=
  ⟨by decide, (tenant_isolation dbTwoGroups 7 (by decide)).1 "Seclo".data (by decide)⟩

theorem eqRatio_le (a b : Str) : eqRatio a b ≤ 100 := by
  unfold eqRatio
  split
  · omega
  · omega

theorem eqRatio_eq100 (a b : Str) : eqRatio a b = 100 ↔ a = b := by
  unfold eqRatio
  by_cases h : a = b
  · simp [h]
  · simp [h]

/-- Claim C5: `find_by_name_fuzzy` returns exactly the group's records
scoring at least the threshold, as pairs sorted by descending score with
ties kept in rowid order (the candidate scan order), and with threshold
100 and a query equal to a stored name it returns that single record with
score 100 (given the Fuzzy Matcher contract and the uniqueness of names
within a group). -/
theorem find_by_name_fuzzy_spec (ratio : Str → Str → Nat) (db : DB) (g : Int)
    (n : Str) (t : Nat) :
    (∀ m s, (m, s) ∈ find_by_name_fuzzy ratio n g t db ↔
      (m ∈ db.medicines ∧ m.group_chat_id = g ∧
       s = ratio (lowerL n) (lowerL m.name) ∧ t ≤ s)) ∧
    (find_by_name_fuzzy ratio n g t db).Pairwise (fun a b => b.2 ≤ a.2) ∧
    (∀ k, (find_by_name_fuzzy ratio n g t db).filter (fun p => p.2 == k) =
      (fuzzyCandidates ratio n g t db).filter (fun p => p.2 == k)) ∧
    (∀ m, db.WF →
      (∀ a b, ratio a b ≤ 100) →
      (∀ a b, ratio a b = 100 ↔ a = b) →
      (∀ m1 ∈ db.medicines, ∀ m2 ∈ db.medicines,
        m1.group_chat_id = g → m2.group_chat_id = g →
        lowerL m1.name = lowerL m2.name → m1 = m2) →
      m ∈ db.medicines → m.group_chat_id = g → lowerL m.name = lowerL n →
      find_by_name_fuzzy ratio n g 100 db = [(m, 100)]) := by
  refine ⟨?_, ?_, ?_, ?_⟩
  · intro m s
    constructor
    · intro hmem
      have h1 : (m, s) ∈ fuzzyCandidates ratio n g t db :=
        (mem_sortStable _ _ _).mp hmem
      rcases List.mem_filterMap.mp h1 with ⟨a, ha, hfa⟩
      have hag : a.group_chat_id = g := by
        have := List.of_mem_filter ha
        simpa using this
      have ham : a ∈ db.medicines := List.mem_of_mem_filter ha
      simp only [] at hfa
      by_cases hth : t ≤ ratio (lowerL n) (lowerL a.name)
      · rw [if_pos hth] at hfa
        simp only [Option.some.injEq, Prod.mk.injEq] at hfa
        rcases hfa with ⟨rfl, hscore⟩
        exact ⟨ham, hag, hscore.symm, hscore ▸ hth⟩
      · rw [if_neg hth] at hfa
        cases hfa
    · rintro ⟨hm, hg, hs, ht⟩
      apply (mem_sortStable _ _ _).mpr
      apply List.mem_filterMap.mpr
      refine ⟨m, List.mem_filter.mpr ⟨hm, by simp [hg]⟩, ?_⟩
      simp only []
      rw [if_pos (hs ▸ ht)]
      rw [← hs]
  · exact pairwise_sortStable_keyDesc (fun p : Medicine × Nat => p.2) _
  · intro k
    exact filter_sortStable_keyDesc (fun p : Medicine × Nat => p.2) k _
  · intro m hwf hr1 hr2 huniq hm hg hname
    have hscore : ratio (lowerL n) (lowerL m.name) = 100 :=
      (hr2 _ _).mpr (hname ▸ rfl)
    have hcands : fuzzyCandidates ratio n g 100 db = [(m, 100)] := by
      unfold fuzzyCandidates
      have hnodup : (db.medicines.filter (fun x => x.group_chat_id == g)).Nodup :=
        (hwf.1.of_map Medicine.id).filter _
      have hmf : m ∈ db.medicines.filter (fun x => x.group_chat_id == g) :=
        List.mem_filter.mpr ⟨hm, by simp [hg]⟩
      refine filterMap_eq_singleton _ _ m (m, 100)
        (List.count_eq_one_of_mem hnodup hmf) ?_ ?_
      · simp only []
        rw [if_pos (by omega)]
        rw [hscore]
      · intro x hx hxm
        have hxg : x.group_chat_id = g := by
          have := List.of_mem_filter hx
          simpa using this
        have hxmem : x ∈ db.medicines := List.mem_of_mem_filter hx
        simp only []
        rw [if_neg ?_]
        intro hc
        have hx100 : ratio (lowerL n) (lowerL x.name) = 100 :=
          Nat.le_antisymm (hr1 _ _) hc
        have hxn : lowerL n = lowerL x.name := (hr2 _ _).mp hx100
        exact hxm (huniq x hxmem m hm hxg hg (by rw [← hxn, hname]))
    unfold find_by_name_fuzzy
    rw [hcands]
    rfl

theorem find_by_name_fuzzy_spec_witness :
    (dbTwoGroups.WF ∧ medNapa ∈ dbTwoGroups.medicines ∧
     medNapa.group_chat_id = 7 ∧ lowerL medNapa.name = lowerL "nApA".data) ∧
    find_by_name_fuzzy eqRatio "nApA".data 7 100 dbTwoGroups = [(medNapa, 100)] :=
  ⟨⟨by decide, by decide, by decide, by decide⟩,
   (find_by_name_fuzzy_spec eqRatio dbTwoGroups 7 "nApA".data 100).2.2.2 medNapa
     (by decide) eqRatio_le eqRatio_eq100 (by decide) (by decide) (by decide) (by decide)⟩

/-- Claim C6: in the resolution branches of `handle_use_medicine` and
`handle_delete_medicine`, a candidate list (sorted by descending score,
scores at most 100) with exactly one perfect-score candidate always
resolves to that candidate and is never ambiguous; the ambiguous outcome
arises only for two or more candidates with the top score below 100, and
then at most five are presented, in descending score order. -/
theorem resolution_exact_wins (l : List (Medicine × Nat)) (x : Medicine × Nat)
    (hsorted : l.Pairwise (fun a b => b.2 ≤ a.2))
    (hle : ∀ p ∈ l, p.2 ≤ 100) :
    (l.filter (fun p => p.2 == 100) = [x] →
      resolveUseMatches l = .resolved x ∧ resolveDeleteMatches l = .resolved x) ∧
    (∀ c, resolveUseMatches l = .ambiguous c →
      2 ≤ l.length ∧ (∀ p ∈ l, p.2 < 100) ∧ c = l.take 5 ∧ c.length ≤ 5 ∧
      c.Pairwise (fun a b => b.2 ≤ a.2)) := by
  constructor
  · intro hfilter
    have hx : x ∈ l ∧ (x.2 == 100) = true := by
      have hmemf : x ∈ l.filter (fun p => p.2 == 100) := by
        rw [hfilter]
        exact List.mem_cons_self x []
      exact List.mem_filter.mp hmemf
    have hx100 : x.2 = 100 := by simpa using hx.2
    cases l with
    | nil => cases hx.1
    | cons a tail =>
      have hatop : ∀ p ∈ a :: tail, p.2 ≤ a.2 := by
        intro p hp
        rcases List.mem_cons.mp hp with hpa | hp
        · exact hpa ▸ Nat.le_refl _
        · exact (List.pairwise_cons.mp hsorted).1 p hp
      have ha100 : a.2 = 100 :=
        Nat.le_antisymm (hle a (List.mem_cons_self a tail)) (hx100 ▸ hatop x hx.1)
      have hax : a = x := by
        have hfa : (a.2 == 100) = true := by simp [ha100]
        rw [List.filter_cons, if_pos hfa] at hfilter
        exact (List.cons_eq_cons.mp hfilter).1
      cases tail with
      | nil =>
        subst hax
        exact ⟨rfl, rfl⟩
      | cons b rest =>
        subst hax
        constructor
        · simp only [resolveUseMatches]
          rw [if_pos (by simp [ha100])]
        · simp only [resolveDeleteMatches]
          rw [if_neg (by simp [ha100])]
  · intro c hc
    cases l with
    | nil => cases hc
    | cons a tail =>
      cases tail with
      | nil => cases hc
      | cons b rest =>
        simp only [resolveUseMatches] at hc
        by_cases ha : (a.2 == 100) = true
        · rw [if_pos ha] at hc
          cases hc
        · rw [if_neg ha] at hc
          have hcc : c = (a :: b :: rest).take 5 := by
            cases hc
            rfl
          have ha100 : a.2 < 100 :=
            Nat.lt_of_le_of_ne (hle a (List.mem_cons_self a _)) (by simpa using ha)
          refine ⟨by simp, ?_, hcc, ?_, ?_⟩
          · intro p hp
            rcases List.mem_cons.mp hp with hpa | hp
            · exact hpa ▸ ha100
            · exact Nat.lt_of_le_of_lt ((List.pairwise_cons.mp hsorted).1 p hp) ha100
          · rw [hcc]
            exact List.length_take_le 5 _
          · rw [hcc]
            exact hsorted.sublist (List.take_sublist 5 _)

theorem resolution_exact_wins_witness :
    ([(medNapa, 100), (medSeclo, 85)].Pairwise
        (fun a b : Medicine × Nat => b.2 ≤ a.2) ∧
     (∀ p ∈ [(medNapa, 100), (medSeclo, 85)], p.2 ≤ 100) ∧
     [(medNapa, 100), (medSeclo, 85)].filter (fun p => p.2 == 100) = [(medNapa, 100)]) ∧
    resolveUseMatches [(medNapa, 100), (medSeclo, 85)] = .resolved (medNapa, 100) ∧
    resolveDeleteMatches [(medNapa, 100), (medSeclo, 85)] = .resolved (medNapa, 100) :=
  ⟨⟨by decide, by decide, by decide⟩,
   (resolution_exact_wins [(medNapa, 100), (medSeclo, 85)] (medNapa, 100)
     (by decide) (by decide)).1 (by decide)⟩

/-- Claim C7 (refuted by the code — the claim describes required
serialization that the implementation does not provide): `update_quantity`
issues its SELECT and its UPDATE as two separate autocommit statements
with no transaction or row lock (despite the source comment claiming a
row lock), so in the interleaving read-A, read-B, write-A, write-B both
concurrent users of the last tablet read the same stale quantity 1, both
pass the underflow check, and both writes are applied — whereas a
serialized second call (reading after the first write) fails with
`InsufficientStock(available=0, requested=1)`.  All steps below are the
phases of `update_quantity` itself, as the first conjunct exhibits. -/
theorem update_quantity_race :
    update_quantity 1 (-1) 7 1 dbRace =
      (.ok { medLastTab with quantity := 0, last_updated := 1 },
       uqWrite 1 0 1 dbRace) ∧
    uqRead 1 7 dbRace = some medLastTab ∧
    medLastTab.quantity = 1 ∧
    ¬ medLastTab.quantity + (-1) < 0 ∧
    (uqWrite 1 0 2 (uqWrite 1 0 1 dbRace)).medicines.map Medicine.quantity = [0] ∧
    (update_quantity 1 (-1) 7 2 (uqWrite 1 0 1 dbRace)).1 =
      .error (.insufficientStock 0 1) := by
  refine ⟨rfl, by decide, by decide, by decide, by decide, rfl⟩

/-- Claim C8: `get_stats` counts only ledger entries of the given group
whose timestamp lies in the trailing window (appending an out-of-scope
entry changes nothing); the top-user and top-medicine lists have at most
five entries in descending count order; the medicine usage counts consider
only entries with action used (appending an in-window entry of another
action changes the medicine ranking nothing); and on the concrete
three-activity scenario it returns total 3 with each action counted once. -/
theorem get_stats_spec :
    (∀ db g days now (e : Activity),
      ¬(e.group_chat_id = g ∧ now - days ≤ e.timestamp) →
      get_stats g days now { db with activity := db.activity ++ [e] } =
        get_stats g days now db) ∧
    (∀ db g days now,
      (get_stats g days now db).most_active_users.length ≤ 5 ∧
      (get_stats g days now db).most_active_users.Pairwise (fun a b => b.2 ≤ a.2) ∧
      (get_stats g days now db).most_used_medicines.length ≤ 5 ∧
      (get_stats g days now db).most_used_medicines.Pairwise (fun a b => b.2 ≤ a.2)) ∧
    (∀ db g days now (e : Activity),
      e.group_chat_id = g → now - days ≤ e.timestamp → e.action ≠ "used".data →
      (get_stats g days now
          { db with activity := db.activity ++ [e] }).most_used_medicines =
        (get_stats g days now db).most_used_medicines) ∧
    (get_stats 7 30 100 dbStats =
      { total_activities := 3,
        activities_by_action :=
          [("added".data, 1), ("used".data, 1), ("searched".data, 1)],
        most_active_users := [("Alice".data, 2), ("Bob".data, 1)],
        most_used_medicines := [("Napa".data, 1)],
        period_days := 30 } ∧
     countFor (get_stats 7 30 100 dbStats).activities_by_action "added".data = some 1 ∧
     countFor (get_stats 7 30 100 dbStats).activities_by_action "used".data = some 1 ∧
     countFor (get_stats 7 30 100 dbStats).activities_by_action "searched".data = some 1) := by
  refine ⟨?_, ?_, ?_, by decide, by decide, by decide, by decide⟩
  · intro db g days now e he
    have hw : statsWindow g days now { db with activity := db.activity ++ [e] } =
        statsWindow g days now db := by
      unfold statsWindow
      simp only [List.filter_append]
      have hef : (e.group_chat_id == g && decide (now - days ≤ e.timestamp)) = false := by
        by_cases h1 : e.group_chat_id = g
        · have h2 : ¬ now - days ≤ e.timestamp := fun h2 => he ⟨h1, h2⟩
          simp [h2]
        · simp [h1]
      have hsing : List.filter (fun a : Activity =>
          a.group_chat_id == g && decide (now - days ≤ a.timestamp)) [e] = [] := by
        simp only [List.filter_singleton]
        rw [hef]
        rfl
      rw [hsing, List.append_nil]
    unfold get_stats
    rw [hw]
  · intro db g days now
    refine ⟨List.length_take_le 5 _,
      (pairwise_sortStable_keyDesc (fun p : Str × Nat => p.2) _).sublist
        (List.take_sublist 5 _),
      List.length_take_le 5 _,
      (pairwise_sortStable_keyDesc (fun p : Str × Nat => p.2) _).sublist
        (List.take_sublist 5 _)⟩
  · intro db g days now e h1 h2 h3
    have hw : statsWindow g days now { db with activity := db.activity ++ [e] } =
        statsWindow g days now db ++ [e] := by
      unfold statsWindow
      simp only [List.filter_append]
      have hef : (e.group_chat_id == g && decide (now - days ≤ e.timestamp)) = true := by
        simp [h1, h2]
      have hsing : List.filter (fun a : Activity =>
          a.group_chat_id == g && decide (now - days ≤ a.timestamp)) [e] = [e] := by
        simp only [List.filter_singleton]
        rw [hef]
        rfl
      rw [hsing]
    unfold get_stats
    simp only [hw, List.filter_append]
    have hub : (e.action == "used".data) = false := beq_eq_false_iff_ne.mpr h3
    have hsing2 : List.filter (fun a : Activity => a.action == "used".data) [e] = [] := by
      simp only [List.filter_singleton]
      rw [hub]
      rfl
    rw [hsing2, List.append_nil]

theorem get_stats_spec_witness :
    (¬(actStale.group_chat_id = 7 ∧ (100 : Int) - 30 ≤ actStale.timestamp)) ∧
    get_stats 7 30 100 { dbStats with activity := dbStats.activity ++ [actStale] } =
      get_stats 7 30 100 dbStats :=
  ⟨by decide, get_stats_spec.1 dbStats 7 30 100 actStale (by decide)⟩

/-- Claim C3: the dispatcher tries List, Add, Use, Search in that order
(the fixed order of `commandParse`) and returns the first match; on the
five benchmark inputs it classifies a quantity-first line as Add, keeps
the question-mark list keyword as List, the minus sigil as Use, a
keyword consumption phrase as Use with quantity defaulted to 1, and an
unmatched line as Unknown with confidence 0. -/
theorem dispatcher_precedence :
    commandParse "10 Napa".data = .ok
      { command_type := .add, medicine_name := some "Napa".data, quantity := some 10,
        unit := "tablets".data, expiry_date := none, location := none,
        confidence := 1, raw_text := "10 Napa".data } ∧
    commandParse "?all".data = .ok
      { command_type := .list, medicine_name := none, quantity := none,
        unit := "tablets".data, expiry_date := none, location := none,
        confidence := 1, raw_text := "?all".data } ∧
    commandParse "-Napa 2".data = .ok
      { command_type := .use, medicine_name := some "Napa".data, quantity := some 2,
        unit := "tablets".data, expiry_date := none, location := none,
        confidence := 1, raw_text := "-Napa 2".data } ∧
    commandParse "Took some paracetamol".data = .ok
      { command_type := .use, medicine_name := some "Paracetamol".data,
        quantity := some 1, unit := "tablets".data, expiry_date := none,
        location := none, confidence := 1,
        raw_text := "Took some paracetamol".data } ∧
    commandParse "Hello world".data = .ok
      { command_type := .unknown, medicine_name := none, quantity := none,
        unit := "tablets".data, expiry_date := none, location := none,
        confidence := 0, raw_text := "Hello world".data } :=
  ⟨by decide, by decide, by decide, by decide, by decide⟩

/-- Claim C9 (refuted by the code — recorded as a code bug): the claim
says the classifiers are total and never throw, but on the input
"+ got napa" the add classifier passes its gate via the plus sigil while
only the keyword-only pattern (a single capture group) matches, so the
plus branch evaluates `groups[1]` and raises an uncaught IndexError,
which the dispatcher propagates. -/
theorem add_classifier_throws :
    addParserParse (trimL "+ got napa".data) = .error .indexError ∧
    commandParse "+ got napa".data = .error .indexError :=
  ⟨by decide, by decide⟩

theorem isSpaceB_lowerCh (c : Char) : isSpaceB (lowerCh c) = isSpaceB c := by
  unfold lowerCh
  split
  all_goals rfl

theorem dropWhile_head_not (p : α → Bool) (l : List α) :
    ∀ a, (l.dropWhile p).head? = some a → p a = false := by
  induction l with
  | nil =>
    intro a h
    cases h
  | cons x xs ih =>
    intro a h
    rw [List.dropWhile_cons] at h
    by_cases hx : p x = true
    · rw [if_pos hx] at h
      exact ih a h
    · rw [if_neg hx] at h
      cases h
      simpa using hx

theorem dropWhile_eq_self_of_head (p : α → Bool) (l : List α)
    (h : ∀ a, l.head? = some a → p a = false) : l.dropWhile p = l := by
  cases l with
  | nil => rfl
  | cons x xs =>
    rw [List.dropWhile_cons, if_neg (by simp [h x rfl])]

theorem trimL_trimL (t : Str) : trimL (trimL t) = trimL t := by
  unfold trimL
  have hA : ∀ a, (t.dropWhile isSpaceB).head? = some a → isSpaceB a = false :=
    dropWhile_head_not isSpaceB t
  have hRB : ∀ a,
      ((t.dropWhile isSpaceB).reverse.dropWhile isSpaceB).head? = some a →
      isSpaceB a = false :=
    dropWhile_head_not isSpaceB (t.dropWhile isSpaceB).reverse
  have h1 : ((t.dropWhile isSpaceB).reverse.dropWhile isSpaceB).reverse.dropWhile
      isSpaceB = ((t.dropWhile isSpaceB).reverse.dropWhile isSpaceB).reverse := by
    apply dropWhile_eq_self_of_head
    intro a ha
    have hsfx : (t.dropWhile isSpaceB).reverse.dropWhile isSpaceB <:+
        (t.dropWhile isSpaceB).reverse := List.dropWhile_suffix isSpaceB
    have hpre : ((t.dropWhile isSpaceB).reverse.dropWhile isSpaceB).reverse <+:
        t.dropWhile isSpaceB := by
      have h2 := List.reverse_prefix.mpr hsfx
      rwa [List.reverse_reverse] at h2
    rcases hpre with ⟨rest, hrest⟩
    apply hA a
    rw [← hrest]
    cases hcase : ((t.dropWhile isSpaceB).reverse.dropWhile isSpaceB).reverse with
    | nil =>
      rw [hcase] at ha
      cases ha
    | cons y ys =>
      rw [hcase] at ha
      cases ha
      rfl
  rw [h1, List.reverse_reverse,
    dropWhile_eq_self_of_head isSpaceB _ hRB]

theorem trimL_lowerL (t : Str) : trimL (lowerL t) = lowerL (trimL t) := by
  unfold trimL lowerL
  have hco : isSpaceB ∘ lowerCh = isSpaceB := by
    funext c
    exact isSpaceB_lowerCh c
  rw [List.dropWhile_map, hco, ← List.map_reverse, List.dropWhile_map, hco,
    ← List.map_reverse]

theorem trimL_lowerL_trimL (t : Str) :
    trimL (lowerL (trimL t)) = lowerL (trimL t) := by
  rw [trimL_lowerL, trimL_trimL]

/-- Claim C10: any input whose trimmed, lowercased form begins with one of
the fixed list keywords is dispatched as a List intent with no medicine
name and no quantity, whatever follows the keyword — including inputs a
reader would expect to be Search or Unknown, such as "show allegra"
(which begins with "show all") and "listen" (which begins with "list"). -/
theorem list_keyword_shadowing (t : Str)
    (h : ∃ k, k ∈ LIST_KEYWORDS ∧ isPrefB k (lowerL (trimL t)) = true) :
    commandParse t = .ok
      { command_type := .list, medicine_name := none, quantity := none,
        unit := "tablets".data, expiry_date := none, location := none,
        confidence := 1, raw_text := trimL t } := by
  rcases h with ⟨k, hk, hpre⟩
  have hguard : LIST_KEYWORDS.any (fun q => trimL (lowerL (trimL t)) == q ||
      isPrefB q (trimL (lowerL (trimL t)))) = true := by
    apply List.any_eq_true.mpr
    refine ⟨k, hk, ?_⟩
    rw [trimL_lowerL_trimL]
    simp [hpre]
  have hlist : listParserParse (trimL t) =
      some { command_type := .list, confidence := 1 } := by
    unfold listParserParse
    rw [if_pos hguard]
  simp only [commandParse, hlist]

theorem list_keyword_shadowing_witness :
    (∃ k, k ∈ LIST_KEYWORDS ∧
      isPrefB k (lowerL (trimL "show allegra".data)) = true) ∧
    commandParse "show allegra".data = .ok
      { command_type := .list, medicine_name := none, quantity := none,
        unit := "tablets".data, expiry_date := none, location := none,
        confidence := 1, raw_text := trimL "show allegra".data } ∧
    commandParse "listen".data = .ok
      { command_type := .list, medicine_name := none, quantity := none,
        unit := "tablets".data, expiry_date := none, location := none,
        confidence := 1, raw_text := trimL "listen".data } :=
  ⟨⟨"show all".data, by decide, by decide⟩,
   list_keyword_shadowing "show allegra".data ⟨"show all".data, by decide, by decide⟩,
   list_keyword_shadowing "listen".data ⟨"list".data, by decide, by decide⟩⟩

end MediCabinet
